import Mathlib

/-!
# Equipment-list expansion rule engine: shallow embedding

Shallow embedding of `gyrinx/content/models_/expansion.py` (equipment list
expansion rules, applicability, item/equipment aggregation) and of the
combined equipment-list resolution exercised by
`gyrinx/core/tests/test_combined_equipment_lists.py`.

Django model rows become Lean structures over `Nat` ids; querysets become
`List`s; a raised exception from an absent required input becomes `none` in an
`Option` result; write-time validation becomes `Except`.
-/

namespace Gyrinx

/-- A `ContentAttributeValue` row: carries the id of the `ContentAttribute` it
belongs to and its own id. -/
structure AttributeValue where
  attr : Nat
  id : Nat
deriving DecidableEq, Repr

/-- A `ListAttributeAssignment` row joining a list to an attribute value, with
its `archived` flag. -/
structure ListAttributeAssignment where
  attribute_value : AttributeValue
  archived : Bool
deriving DecidableEq, Repr

/-- The `List` model (a gang), as the rule engine sees it: its
`content_house` id and its attribute-value assignments. Named `GangList`
because `List` is taken in Lean. -/
structure GangList where
  content_house : Nat
  attributes : List ListAttributeAssignment
deriving DecidableEq, Repr

/-- Modelled from the spec: `List.active_attributes_cached` is the collaborator
interface (code outside the embedded module) returning the list's currently
active (non-archived) attribute-value assignments. -/
def GangList.active_attributes_cached (l : GangList) : List ListAttributeAssignment :=
  l.attributes.filter (fun a => !a.archived)

/-- Modelled from the spec: `ListFighter` as the rule engine sees it —
`get_category()` is a collaborator interface (code outside the embedded
module) resolving the fighter's category, which may fail to resolve. -/
structure ListFighter where
  category : Option Nat
deriving DecidableEq, Repr

/-- The method `ListFighter.get_category()`: the fighter's resolved category, if any. -/
def ListFighter.get_category (f : ListFighter) : Option Nat :=
  f.category

/-- The `ExpansionRuleInputs` dataclass: optional list and optional fighter. -/
structure ExpansionRuleInputs where
  list : Option GangList
  fighter : Option ListFighter
deriving DecidableEq, Repr

/-- The polymorphic `ContentEquipmentListExpansionRule` with its three
variants: by attribute, by house, by fighter category. -/
inductive ContentEquipmentListExpansionRule where
  | byAttribute (attr : Nat) (attribute_values : List AttributeValue)
  | byHouse (house : Nat)
  | byFighterCategory (fighter_categories : List Nat)
deriving DecidableEq, Repr

/-- The queryset `list_obj.attributes.filter(attribute=attr,
listattributeassignment__archived=False)` used by the attribute rule's
`match`: the list's active values for one attribute. -/
def GangList.valuesFor (l : GangList) (attr : Nat) : List AttributeValue :=
  (l.attributes.filter
    (fun a => a.attribute_value.attr == attr && !a.archived)).map
    (fun a => a.attribute_value)

/-- The method `ContentEquipmentListExpansionRule.match` (named `matchRule`; `match` is a
Lean keyword). Returns `none` where the Python would raise — the attribute and
house variants dereference `rule_inputs.list` unconditionally, so an absent
list is an exception; the fighter-category variant never raises. -/
def ContentEquipmentListExpansionRule.matchRule :
    ContentEquipmentListExpansionRule → ExpansionRuleInputs → Option Bool
  | .byAttribute attr vals, inp =>
    inp.list.map (fun l =>
      let list_values := l.valuesFor attr
      if list_values.isEmpty then false
      else if vals.isEmpty then true
      else list_values.any (fun v => vals.contains v))
  | .byHouse h, inp =>
    inp.list.map (fun l => l.content_house == h)
  | .byFighterCategory cats, inp =>
    some (match inp.fighter with
      | none => false
      | some f =>
        match f.get_category with
        | none => false
        | some c => cats.contains c)

/-- A `ContentEquipmentListExpansion` row: its id and its many-to-many `rules`
set. -/
structure ContentEquipmentListExpansion where
  id : Nat
  rules : List ContentEquipmentListExpansionRule
deriving DecidableEq, Repr

/-- The loop body of `applies_to`: walk the rules, propagate an exception,
short-circuit on the first non-matching rule, return `true` when the rules run
out. -/
def appliesAux (inp : ExpansionRuleInputs) :
    List ContentEquipmentListExpansionRule → Option Bool
  | [] => some true
  | r :: rs =>
    match r.matchRule inp with
    | none => none
    | some false => some false
    | some true => appliesAux inp rs

/-- The method `ContentEquipmentListExpansion.applies_to`: all rules must match (AND
logic); the loop over zero rules falls through to `return True`. -/
def ContentEquipmentListExpansion.applies_to
    (e : ContentEquipmentListExpansion) (inp : ExpansionRuleInputs) : Option Bool :=
  appliesAux inp e.rules

/-- A `ContentWeaponProfile` row: its id and the id of the `ContentEquipment`
it belongs to. -/
structure ContentWeaponProfile where
  id : Nat
  equipment : Nat
deriving DecidableEq, Repr

/-- A `ContentEquipmentListExpansionItem` row: the owning expansion (by id),
the equipment (by id), an optional weapon profile, and an optional cost
override. -/
structure ContentEquipmentListExpansionItem where
  expansion : Nat
  equipment : Nat
  weapon_profile : Option ContentWeaponProfile
  cost : Option Int
deriving DecidableEq, Repr

/-- The method `ContentEquipmentListExpansionItem.clean`: write-time validation — a
weapon profile, when set, must belong to the item's equipment. -/
def ContentEquipmentListExpansionItem.clean
    (it : ContentEquipmentListExpansionItem) : Except String Unit :=
  match it.weapon_profile with
  | some wp =>
    if wp.equipment != it.equipment then
      Except.error "Weapon profile must match the equipment selected."
    else Except.ok ()
  | none => Except.ok ()

/-- A `ContentEquipment` row: its id and native cost (`cost_cast_int`). -/
structure ContentEquipment where
  id : Nat
  cost_cast_int : Int
deriving DecidableEq, Repr

/-- The database tables the class-level queries range over: the expansion
catalog, the expansion-item table, and the equipment table. -/
structure Db where
  expansions : List ContentEquipmentListExpansion
  items : List ContentEquipmentListExpansionItem
  equipment : List ContentEquipment
deriving DecidableEq, Repr

/-- The candidate-rule predicate of `get_applicable_expansions`: the `Q`
filter selecting rules that could match the inputs — attribute rules whose
`attribute_values` intersect the list's active attribute values, house rules
whose house is the list's house, and (when a fighter is present)
fighter-category rules whose categories contain the fighter's category. -/
def ruleIsCandidate (l : GangList) (fighter : Option ListFighter) :
    ContentEquipmentListExpansionRule → Bool
  | .byAttribute _ vals =>
    vals.any (fun v =>
      (l.active_attributes_cached.map (fun aa => aa.attribute_value)).contains v)
  | .byHouse h => l.content_house == h
  | .byFighterCategory cats =>
    match fighter with
    | none => false
    | some f =>
      match f.get_category with
      | none => false
      | some c => cats.contains c

/-- The classmethod `ContentEquipmentListExpansion.get_applicable_expansions`: the two-phase
query — build the candidate-rule set, then keep the expansions whose count of
candidate rules equals their total rule count, excluding a zero total.
Dereferences `rule_inputs.list` unconditionally, so an absent list is an
exception (`none`). -/
def get_applicable_expansions (db : Db) (inp : ExpansionRuleInputs) :
    Option (List ContentEquipmentListExpansion) :=
  inp.list.map (fun l =>
    db.expansions.filter (fun e =>
      let matched := (e.rules.filter (ruleIsCandidate l inp.fighter)).length
      let total := e.rules.length
      matched == total && total != 0))

/-- The naive algorithm the spec declares observationally equivalent to the
two-phase query: for each expansion with at least one rule, call `match` on
every one of its rules and keep the expansion iff all return true. -/
def naive_applicable_expansions (db : Db) (inp : ExpansionRuleInputs) :
    Option (List ContentEquipmentListExpansion) :=
  inp.list.map (fun _ =>
    db.expansions.filter (fun e =>
      !e.rules.isEmpty && e.rules.all (fun r => r.matchRule inp == some true)))

/-- The classmethod `get_applicable_expansion_items_for_equipment`: short-circuit to an empty
result when no expansion item anywhere references the (equipment, profile)
pair; otherwise filter the items on the pair and on membership of the owning
expansion in the applicable expansions. -/
def get_applicable_expansion_items_for_equipment (db : Db)
    (inp : ExpansionRuleInputs) (equipment : Nat)
    (weapon_profile : Option ContentWeaponProfile) :
    Option (List ContentEquipmentListExpansionItem) :=
  let exists_in_expansion := db.items.any (fun i =>
    i.equipment == equipment && i.weapon_profile == weapon_profile)
  if !exists_in_expansion then some []
  else
    (get_applicable_expansions db inp).map (fun apps =>
      db.items.filter (fun i =>
        i.equipment == equipment && i.weapon_profile == weapon_profile
          && apps.any (fun e => e.id == i.expansion)))

/-- The full filter of `get_applicable_expansion_items_for_equipment` without
its existence guard: items on the (equipment, profile) pair whose owning
expansion is applicable. -/
def items_for_equipment_no_guard (db : Db) (inp : ExpansionRuleInputs)
    (equipment : Nat) (weapon_profile : Option ContentWeaponProfile) :
    Option (List ContentEquipmentListExpansionItem) :=
  (get_applicable_expansions db inp).map (fun apps =>
    db.items.filter (fun i =>
      i.equipment == equipment && i.weapon_profile == weapon_profile
        && apps.any (fun e => e.id == i.expansion)))

/-- One value of the `equipment_data` dict of `get_expansion_equipment`:
a dict with a "cost" entry and a "profiles" entry. Profile overrides are
keyed by weapon profile id. -/
structure EqData where
  cost : Option Int
  profiles : List (Nat × Option Int)
deriving DecidableEq, Repr

/-- Python-dict assignment on an association list keyed by `Nat`: overwrite in
place when the key exists, append otherwise. -/
def dictSet (ps : List (Nat × Option Int)) (k : Nat) (v : Option Int) :
    List (Nat × Option Int) :=
  if ps.any (fun kv => kv.1 == k) then
    ps.map (fun kv => if kv.1 == k then (kv.1, v) else kv)
  else ps ++ [(k, v)]

/-- The statement initializing a missing `equipment_data` entry for an
equipment id with a null cost and an empty profiles dict. -/
def dataInit (m : List (Nat × EqData)) (k : Nat) : List (Nat × EqData) :=
  if m.any (fun kv => kv.1 == k) then m else m ++ [(k, EqData.mk none [])]

/-- Update the entry at key `k` of `equipment_data` in place. -/
def dataUpdate (m : List (Nat × EqData)) (k : Nat) (f : EqData → EqData) :
    List (Nat × EqData) :=
  m.map (fun kv => if kv.1 == k then (kv.1, f kv.2) else kv)

/-- Association-list lookup on `equipment_data`. -/
def dataFind : List (Nat × EqData) → Nat → Option EqData
  | [], _ => none
  | kv :: m, k => if kv.1 == k then some kv.2 else dataFind m k

/-- The inner loop body of `get_expansion_equipment`: merge one expansion item
into `equipment_data` — a profile-level item records its cost under the
profile id, a base-level item overwrites the equipment's base cost override. -/
def processItem (m : List (Nat × EqData))
    (it : ContentEquipmentListExpansionItem) : List (Nat × EqData) :=
  let m := dataInit m it.equipment
  match it.weapon_profile with
  | some wp =>
    dataUpdate m it.equipment
      (fun d => EqData.mk d.cost (dictSet d.profiles wp.id it.cost))
  | none => dataUpdate m it.equipment (fun d => EqData.mk it.cost d.profiles)

/-- The items of one expansion (`expansion.items.all()`), in table order. -/
def expansionItems (db : Db) (e : ContentEquipmentListExpansion) :
    List ContentEquipmentListExpansionItem :=
  db.items.filter (fun it => it.expansion == e.id)

/-- The classmethod `ContentEquipmentListExpansion.get_expansion_equipment`: build
`equipment_data` by walking the applicable expansions' items, then return the
referenced equipment annotated with `expansion_cost_override` — the recorded
base cost override when non-null, the equipment's own `cost_cast_int`
otherwise. Dereferences the input list (via `get_applicable_expansions`), so
an absent list is an exception (`none`). -/
def get_expansion_equipment (db : Db) (inp : ExpansionRuleInputs) :
    Option (List (ContentEquipment × Int)) :=
  (get_applicable_expansions db inp).map (fun apps =>
    let equipment_data := apps.foldl
      (fun m e => (expansionItems db e).foldl processItem m) []
    let equipment := db.equipment.filter
      (fun eq => equipment_data.any (fun kv => kv.1 == eq.id))
    equipment.map (fun eq =>
      (eq, match dataFind equipment_data eq.id with
           | some d =>
             match d.cost with
             | some c => c
             | none => eq.cost_cast_int
           | none => eq.cost_cast_int)))

/-- The items of all applicable expansions, in processing order. -/
def applicableItems (db : Db) (inp : ExpansionRuleInputs) :
    List ContentEquipmentListExpansionItem :=
  ((get_applicable_expansions db inp).getD []).flatMap (expansionItems db)

/-- The base-level cost override `get_expansion_equipment` ends up with for
one equipment id: the cost of the last base-level (no weapon profile) item for
that equipment among the applicable expansions' items, when there is one. -/
def lastBaseCost (db : Db) (inp : ExpansionRuleInputs) (eqid : Nat) :
    Option Int :=
  (((applicableItems db inp).filter
    (fun it => it.equipment == eqid && it.weapon_profile.isNone)).getLast?).bind
    (fun it => it.cost)

/-- A `ContentFighterEquipmentListItem` row: an equipment-list entry of one
source fighter — fighter id, equipment id, optional weapon profile id, cost. -/
structure ContentFighterEquipmentListItem where
  fighter : Nat
  equipment : Nat
  weapon_profile : Option Nat
  cost : Int
deriving DecidableEq, Repr

/-- Modelled from the spec: the core `ListFighter` as the combined
equipment-list resolution sees it — its own content fighter and an optional
legacy content fighter (the model lives in `gyrinx/core/models/list.py`,
which is not part of the embedded sources; only its test is). -/
structure CoreListFighter where
  content_fighter : Nat
  legacy_content_fighter : Option Nat
deriving DecidableEq, Repr

/-- Modelled from the spec: `ListFighter.equipment_list_fighters` — the
ordered sequence of source fighters, the legacy fighter first when present,
else just the fighter's own content fighter. -/
def equipment_list_fighters (f : CoreListFighter) : List Nat :=
  match f.legacy_content_fighter with
  | some legacy => [legacy, f.content_fighter]
  | none => [f.content_fighter]

/-- Modelled from the spec: cost resolution across the combined equipment
lists — query entries keyed by (equipment, weapon profile) across all
`equipment_list_fighters`, the earlier source (legacy first) taking
precedence on key collisions. -/
def resolve_cost (entries : List ContentFighterEquipmentListItem)
    (f : CoreListFighter) (equipment : Nat) (wp : Option Nat) : Option Int :=
  (equipment_list_fighters f).findSome? (fun src =>
    (entries.find? (fun e =>
      e.fighter == src && e.equipment == equipment
        && e.weapon_profile == wp)).map (fun e => e.cost))

/-! ## Shared helper lemmas -/

/-- An assignment contributing to `valuesFor`: active (non-archived) and on
the given attribute. -/
def activeOn (a : ListAttributeAssignment) (attr : Nat) : Prop :=
  a.attribute_value.attr = attr ∧ a.archived = false

instance (a : ListAttributeAssignment) (attr : Nat) : Decidable (activeOn a attr) := by
  unfold activeOn
  infer_instance

lemma mem_valuesFor {l : GangList} {attr : Nat} {v : AttributeValue} :
    v ∈ l.valuesFor attr ↔
      ∃ a ∈ l.attributes, activeOn a attr ∧ a.attribute_value = v := by
  simp only [GangList.valuesFor, List.mem_map, List.mem_filter, activeOn,
    Bool.and_eq_true, beq_iff_eq, Bool.not_eq_true']
  constructor
  · rintro ⟨a, ⟨ha, h1, h2⟩, rfl⟩
    exact ⟨a, ha, ⟨h1, h2⟩, rfl⟩
  · rintro ⟨a, ha, ⟨h1, h2⟩, rfl⟩
    exact ⟨a, ⟨ha, h1, h2⟩, rfl⟩

lemma valuesFor_isEmpty_iff {l : GangList} {attr : Nat} :
    (l.valuesFor attr).isEmpty = true ↔ ¬∃ a ∈ l.attributes, activeOn a attr := by
  rw [List.isEmpty_iff, List.eq_nil_iff_forall_not_mem]
  constructor
  · intro h ⟨a, ha, hact⟩
    exact h a.attribute_value (mem_valuesFor.mpr ⟨a, ha, hact, rfl⟩)
  · intro h v hv
    obtain ⟨a, ha, hact, _⟩ := mem_valuesFor.mp hv
    exact h ⟨a, ha, hact⟩

/-- Characterization of the attribute rule's `match` when the list is
present. -/
lemma byAttribute_matchRule_iff (attr : Nat) (vals : List AttributeValue)
    (inp : ExpansionRuleInputs) (l : GangList) (hl : inp.list = some l) :
    ((ContentEquipmentListExpansionRule.byAttribute attr vals).matchRule inp
      = some true) ↔
    ((∃ a ∈ l.attributes, activeOn a attr) ∧
      (vals = [] ∨
        ∃ a ∈ l.attributes, activeOn a attr ∧ a.attribute_value ∈ vals)) := by
  simp only [ContentEquipmentListExpansionRule.matchRule, hl, Option.map_some',
    Option.some.injEq]
  by_cases h1 : (l.valuesFor attr).isEmpty = true
  · rw [if_pos h1]
    simp only [Bool.false_eq_true, false_iff, not_and]
    intro hex
    exact absurd hex (valuesFor_isEmpty_iff.mp h1)
  · have hex : ∃ a ∈ l.attributes, activeOn a attr := by
      by_contra hc
      exact h1 (valuesFor_isEmpty_iff.mpr hc)
    rw [if_neg h1]
    by_cases h2 : vals.isEmpty = true
    · rw [if_pos h2]
      simp only [true_iff]
      exact ⟨hex, Or.inl (List.isEmpty_iff.mp h2)⟩
    · have hvne : vals ≠ [] := fun hc => h2 (List.isEmpty_iff.mpr hc)
      rw [if_neg h2]
      simp only [List.any_eq_true]
      constructor
      · rintro ⟨v, hv, hcont⟩
        obtain ⟨a, ha, hact, rfl⟩ := mem_valuesFor.mp hv
        exact ⟨hex, Or.inr ⟨a, ha, hact, by simpa using hcont⟩⟩
      · rintro ⟨-, hca⟩
        rcases hca with h | ⟨a, ha, hact, hmem⟩
        · exact absurd h hvne
        · exact ⟨a.attribute_value, mem_valuesFor.mpr ⟨a, ha, hact, rfl⟩,
            by simpa using hmem⟩

/-- When the evaluation input has a list, no rule variant's `match` raises. -/
lemma matchRule_isSome (r : ContentEquipmentListExpansionRule)
    (inp : ExpansionRuleInputs) (l : GangList) (hl : inp.list = some l) :
    (r.matchRule inp).isSome = true := by
  cases r <;> simp [ContentEquipmentListExpansionRule.matchRule, hl]

/-! ## C3 -/

/-- C3: for every attribute rule and input with a list, `match` is true iff
the list has an active value for the rule's attribute and (the allowed-values
set is empty, or some active value for that attribute is allowed); with no
active value for the attribute, `match` is false regardless of the allowed
values. -/
theorem c3_attribute_match_iff (attr : Nat) (vals : List AttributeValue)
    (inp : ExpansionRuleInputs) (l : GangList) (hl : inp.list = some l) :
    (((ContentEquipmentListExpansionRule.byAttribute attr vals).matchRule inp
      = some true) ↔
      ((∃ a ∈ l.attributes, activeOn a attr) ∧
        (vals = [] ∨
          ∃ a ∈ l.attributes, activeOn a attr ∧ a.attribute_value ∈ vals))) ∧
    ((¬∃ a ∈ l.attributes, activeOn a attr) →
      (ContentEquipmentListExpansionRule.byAttribute attr vals).matchRule inp
        = some false) := by
  refine ⟨byAttribute_matchRule_iff attr vals inp l hl, fun hno => ?_⟩
  simp only [ContentEquipmentListExpansionRule.matchRule, hl, Option.map_some',
    Option.some.injEq, valuesFor_isEmpty_iff.mpr hno, if_true]

/-- Witness for C3 at a concrete rule and input: attribute 1 has active value
⟨1, 10⟩ on the list and the rule allows it, so the match conditions hold. -/
theorem c3_witness :
    ((ContentEquipmentListExpansionRule.byAttribute 1
        [AttributeValue.mk 1 10]).matchRule
      (ExpansionRuleInputs.mk
        (some (GangList.mk 5 [ListAttributeAssignment.mk (AttributeValue.mk 1 10) false]))
        none) = some true) :=
  (c3_attribute_match_iff 1 [AttributeValue.mk 1 10] _
    (GangList.mk 5 [ListAttributeAssignment.mk (AttributeValue.mk 1 10) false])
    rfl).1.mpr (by decide)

/-! ## C10 -/

/-- C10: an attribute rule with a non-empty allowed-values set matches as soon
as one of the list's several active values for the attribute is allowed —
any-of semantics: another active value for the same attribute may lie outside
the allowed set without blocking the match. -/
theorem c10_any_of_semantics (attr : Nat) (vals : List AttributeValue)
    (inp : ExpansionRuleInputs) (l : GangList)
    (a₁ a₂ : ListAttributeAssignment) (hl : inp.list = some l)
    (hvals : vals ≠ []) (h₁ : a₁ ∈ l.attributes) (hact₁ : activeOn a₁ attr)
    (hmem : a₁.attribute_value ∈ vals) (h₂ : a₂ ∈ l.attributes)
    (hact₂ : activeOn a₂ attr) (hnot : a₂.attribute_value ∉ vals) :
    (ContentEquipmentListExpansionRule.byAttribute attr vals).matchRule inp
      = some true :=
  (byAttribute_matchRule_iff attr vals inp l hl).mpr
    ⟨⟨a₁, h₁, hact₁⟩, Or.inr ⟨a₁, h₁, hact₁, hmem⟩⟩

/-- Witness for C10: the list has active values 10 and 11 for attribute 1;
only 10 is allowed, yet the rule matches. -/
theorem c10_witness :
    (ContentEquipmentListExpansionRule.byAttribute 1
        [AttributeValue.mk 1 10]).matchRule
      (ExpansionRuleInputs.mk
        (some (GangList.mk 5
          [ListAttributeAssignment.mk (AttributeValue.mk 1 10) false,
           ListAttributeAssignment.mk (AttributeValue.mk 1 11) false]))
        none) = some true :=
  c10_any_of_semantics 1 [AttributeValue.mk 1 10] _
    (GangList.mk 5
      [ListAttributeAssignment.mk (AttributeValue.mk 1 10) false,
       ListAttributeAssignment.mk (AttributeValue.mk 1 11) false])
    (ListAttributeAssignment.mk (AttributeValue.mk 1 10) false)
    (ListAttributeAssignment.mk (AttributeValue.mk 1 11) false)
    rfl (by decide) (by decide) (by decide) (by decide) (by decide)
    (by decide) (by decide)

/-! ## C4 -/

/-- C4: the fighter-category rule's `match` never raises; it is false when the
input has no fighter, false when the fighter's category cannot be resolved,
and otherwise true iff the resolved category is among the rule's
categories. -/
theorem c4_fighter_category_match (cats : List Nat)
    (inp : ExpansionRuleInputs) :
    (((ContentEquipmentListExpansionRule.byFighterCategory cats).matchRule
        inp).isSome = true) ∧
    (inp.fighter = none →
      (ContentEquipmentListExpansionRule.byFighterCategory cats).matchRule inp
        = some false) ∧
    (∀ f, inp.fighter = some f → f.get_category = none →
      (ContentEquipmentListExpansionRule.byFighterCategory cats).matchRule inp
        = some false) ∧
    (∀ f c, inp.fighter = some f → f.get_category = some c →
      ((ContentEquipmentListExpansionRule.byFighterCategory cats).matchRule inp
        = some true ↔ c ∈ cats)) := by
  refine ⟨?_, fun h => ?_, fun f hf hc => ?_, fun f c hf hc => ?_⟩
  · simp [ContentEquipmentListExpansionRule.matchRule]
  · simp [ContentEquipmentListExpansionRule.matchRule, h]
  · simp [ContentEquipmentListExpansionRule.matchRule, hf, hc]
  · simp [ContentEquipmentListExpansionRule.matchRule, hf, hc]

/-- Witness for C4 at a concrete rule and input with no fighter: the match is
false and raises nothing. -/
theorem c4_witness :
    (ContentEquipmentListExpansionRule.byFighterCategory [3]).matchRule
      (ExpansionRuleInputs.mk (some (GangList.mk 0 [])) none) = some false :=
  (c4_fighter_category_match [3]
    (ExpansionRuleInputs.mk (some (GangList.mk 0 [])) none)).2.1 rfl

/-! ## C1 -/

/-- C1 counterexample: an expansion with zero rules, for which the claim says
`applies_to` is always false — but the loop over no rules falls through and
`applies_to` returns true. -/
theorem c1_counterexample :
    (ContentEquipmentListExpansion.mk 0 []).rules = [] ∧
    (ContentEquipmentListExpansion.mk 0 []).applies_to
      (ExpansionRuleInputs.mk (some (GangList.mk 0 [])) none) = some true :=
  ⟨rfl, rfl⟩

/-- C1 as amended: for every expansion and input with a list, `applies_to` is
true iff every associated rule's `match` is true — vacuously true for an
expansion with zero rules; the exclusion of zero-rule expansions happens in
`get_applicable_expansions`, not in `applies_to`. -/
theorem c1_amended_applies_iff (e : ContentEquipmentListExpansion)
    (inp : ExpansionRuleInputs) (l : GangList) (hl : inp.list = some l) :
    e.applies_to inp = some true ↔
      ∀ r ∈ e.rules, r.matchRule inp = some true := by
  unfold ContentEquipmentListExpansion.applies_to
  induction e.rules with
  | nil => simp [appliesAux]
  | cons r rs ih =>
    have hs := matchRule_isSome r inp l hl
    cases hr : r.matchRule inp with
    | none => simp [hr] at hs
    | some b =>
      cases b with
      | false => simp [appliesAux, hr]
      | true => simp [appliesAux, hr, ih]

/-- Witness for C1's amended theorem: a one-rule expansion whose house rule
matches the input list's house, so `applies_to` is true. -/
theorem c1_witness :
    (ContentEquipmentListExpansion.mk 1
      [ContentEquipmentListExpansionRule.byHouse 7]).applies_to
      (ExpansionRuleInputs.mk (some (GangList.mk 7 [])) none) = some true :=
  (c1_amended_applies_iff
    (ContentEquipmentListExpansion.mk 1
      [ContentEquipmentListExpansionRule.byHouse 7])
    (ExpansionRuleInputs.mk (some (GangList.mk 7 [])) none)
    (GangList.mk 7 []) rfl).mpr (by decide)

/-! ## C2 -/

/-- A catalog with a single expansion whose only rule is an attribute rule
with an empty allowed-values set. -/
def dbC2 : Db :=
  Db.mk
    [ContentEquipmentListExpansion.mk 0
      [ContentEquipmentListExpansionRule.byAttribute 1 []]]
    [] []

/-- An input whose list has an active value for attribute 1. -/
def inpC2 : ExpansionRuleInputs :=
  ExpansionRuleInputs.mk
    (some (GangList.mk 3
      [ListAttributeAssignment.mk (AttributeValue.mk 1 10) false]))
    none

/-- C2: the two algorithms disagree. The candidate-rule predicate
(`attribute_values__in=[...]`) can never select an attribute rule whose
allowed-values set is empty, so the two-phase query drops the expansion, while
`match` documents empty allowed values as "any value" and `applies_to` (the
naive per-rule evaluation) accepts it. -/
theorem c2_divergence :
    get_applicable_expansions dbC2 inpC2 = some [] ∧
    naive_applicable_expansions dbC2 inpC2 =
      some [ContentEquipmentListExpansion.mk 0
        [ContentEquipmentListExpansionRule.byAttribute 1 []]] ∧
    (ContentEquipmentListExpansion.mk 0
      [ContentEquipmentListExpansionRule.byAttribute 1 []]).applies_to inpC2
      = some true :=
  ⟨rfl, rfl, rfl⟩

/-! ## C5 -/

/-- C5: the existence guard of `get_applicable_expansion_items_for_equipment`
never changes the result — for every input with a list, the function equals
the unguarded filter of items on the (equipment, profile) pair whose owning
expansion is applicable. -/
theorem c5_items_guard_equiv (db : Db) (inp : ExpansionRuleInputs)
    (equipment : Nat) (wp : Option ContentWeaponProfile) (l : GangList)
    (hl : inp.list = some l) :
    get_applicable_expansion_items_for_equipment db inp equipment wp =
      items_for_equipment_no_guard db inp equipment wp := by
  unfold get_applicable_expansion_items_for_equipment
    items_for_equipment_no_guard
  by_cases hex : (db.items.any fun i =>
      i.equipment == equipment && i.weapon_profile == wp) = true
  · simp [hex]
  · have hex' : (db.items.any fun i =>
        i.equipment == equipment && i.weapon_profile == wp) = false := by
      simpa using hex
    have hforall : ∀ i ∈ db.items,
        (i.equipment == equipment && i.weapon_profile == wp) = false := by
      intro i hi
      by_contra hc
      have hct : (i.equipment == equipment && i.weapon_profile == wp) = true := by
        revert hc
        cases i.equipment == equipment && i.weapon_profile == wp <;> simp
      exact hex (List.any_eq_true.mpr ⟨i, hi, hct⟩)
    simp only [hex', Bool.not_false, if_true, get_applicable_expansions, hl,
      Option.map_some', Option.some.injEq]
    symm
    apply List.filter_eq_nil_iff.mpr
    intro i hi
    simp [hforall i hi]

/-- Witness for C5 at a concrete catalog: one applicable expansion carrying
one base-level item for equipment 5; the guarded and unguarded computations
agree. -/
theorem c5_witness :
    get_applicable_expansion_items_for_equipment
      (Db.mk [ContentEquipmentListExpansion.mk 0
                [ContentEquipmentListExpansionRule.byHouse 7]]
             [ContentEquipmentListExpansionItem.mk 0 5 none (some 3)] [])
      (ExpansionRuleInputs.mk (some (GangList.mk 7 [])) none) 5 none =
    items_for_equipment_no_guard
      (Db.mk [ContentEquipmentListExpansion.mk 0
                [ContentEquipmentListExpansionRule.byHouse 7]]
             [ContentEquipmentListExpansionItem.mk 0 5 none (some 3)] [])
      (ExpansionRuleInputs.mk (some (GangList.mk 7 [])) none) 5 none :=
  c5_items_guard_equiv _ _ 5 none (GangList.mk 7 []) rfl

/-! ## C9 -/

/-- The `applies_to` loop returns a value (raises nothing) whenever the input
has a list. -/
lemma appliesAux_isSome (inp : ExpansionRuleInputs) (l : GangList)
    (hl : inp.list = some l) (rs : List ContentEquipmentListExpansionRule) :
    (appliesAux inp rs).isSome = true := by
  induction rs with
  | nil => rfl
  | cons r rs ih =>
    have hs := matchRule_isSome r inp l hl
    cases hr : r.matchRule inp with
    | none => simp [hr] at hs
    | some b => cases b <;> simp [appliesAux, hr, ih]

/-- C9: `clean` raises a validation error exactly when the item's weapon
profile is set and does not belong to the item's equipment; and with a list in
the input, no rule-evaluation operation (`match`, `applies_to`,
`get_applicable_expansions`, `get_applicable_expansion_items_for_equipment`,
`get_expansion_equipment`) raises anything — validation is write-time only. -/
theorem c9_clean_validation (it : ContentEquipmentListExpansionItem) :
    ((∃ wp, it.weapon_profile = some wp ∧ wp.equipment ≠ it.equipment) ↔
      ∃ msg, it.clean = Except.error msg) ∧
    (∀ (db : Db) (inp : ExpansionRuleInputs) (l : GangList),
      inp.list = some l →
      (∀ r : ContentEquipmentListExpansionRule, (r.matchRule inp).isSome = true) ∧
      (∀ e : ContentEquipmentListExpansion, (e.applies_to inp).isSome = true) ∧
      (get_applicable_expansions db inp).isSome = true ∧
      (∀ (equipment : Nat) (wp : Option ContentWeaponProfile),
        (get_applicable_expansion_items_for_equipment db inp equipment
          wp).isSome = true) ∧
      (get_expansion_equipment db inp).isSome = true) := by
  constructor
  · cases hwp : it.weapon_profile with
    | none => simp [ContentEquipmentListExpansionItem.clean, hwp]
    | some wp =>
      by_cases hne : wp.equipment = it.equipment
      · simp [ContentEquipmentListExpansionItem.clean, hwp, hne]
      · simp [ContentEquipmentListExpansionItem.clean, hwp, hne]
  · intro db inp l hl
    refine ⟨fun r => matchRule_isSome r inp l hl,
      fun e => appliesAux_isSome inp l hl e.rules, ?_, fun equipment wp => ?_, ?_⟩
    · simp [get_applicable_expansions, hl]
    · unfold get_applicable_expansion_items_for_equipment
      by_cases hex : (db.items.any fun i =>
          i.equipment == equipment && i.weapon_profile == wp) = true
      · simp [hex, get_applicable_expansions, hl]
      · simp [hex]
    · simp [get_expansion_equipment, get_applicable_expansions, hl]

/-- Witness for C9: an item whose weapon profile belongs to equipment 1 while
the item references equipment 2 — `clean` raises. -/
theorem c9_witness :
    ∃ msg,
      (ContentEquipmentListExpansionItem.mk 0 2
        (some (ContentWeaponProfile.mk 9 1)) none).clean = Except.error msg :=
  ((c9_clean_validation
    (ContentEquipmentListExpansionItem.mk 0 2
      (some (ContentWeaponProfile.mk 9 1)) none)).1).mp
    ⟨ContentWeaponProfile.mk 9 1, rfl, by decide⟩

/-! ## C7 -/

/-- C7: `equipment_list_fighters` is the ordered pair [legacy, own content
fighter] when a legacy fighter is present, and just [own content fighter]
otherwise. -/
theorem c7_equipment_list_fighters (f : CoreListFighter) :
    (∀ legacy, f.legacy_content_fighter = some legacy →
      equipment_list_fighters f = [legacy, f.content_fighter]) ∧
    (f.legacy_content_fighter = none →
      equipment_list_fighters f = [f.content_fighter]) := by
  constructor
  · intro legacy h
    simp [equipment_list_fighters, h]
  · intro h
    simp [equipment_list_fighters, h]

/-- Witness for C7: a fighter with content fighter 1 and legacy 2 — the
sources are [2, 1], legacy first. -/
theorem c7_witness :
    equipment_list_fighters (CoreListFighter.mk 1 (some 2)) = [2, 1] :=
  (c7_equipment_list_fighters (CoreListFighter.mk 1 (some 2))).1 2 rfl

/-! ## C8 -/

/-- C8: with a legacy fighter present, when both the legacy and the base
source have an equipment-list entry for the (equipment, weapon profile) key,
`resolve_cost` returns the legacy entry's cost; when only one source has an
entry, that entry's cost is returned. -/
theorem c8_resolve_cost_precedence
    (entries : List ContentFighterEquipmentListItem) (f : CoreListFighter)
    (legacy equipment : Nat) (wp : Option Nat)
    (hleg : f.legacy_content_fighter = some legacy) :
    (∀ eL eB,
      entries.find? (fun e => e.fighter == legacy && e.equipment == equipment
        && e.weapon_profile == wp) = some eL →
      entries.find? (fun e => e.fighter == f.content_fighter
        && e.equipment == equipment && e.weapon_profile == wp) = some eB →
      resolve_cost entries f equipment wp = some eL.cost) ∧
    (∀ eL,
      entries.find? (fun e => e.fighter == legacy && e.equipment == equipment
        && e.weapon_profile == wp) = some eL →
      entries.find? (fun e => e.fighter == f.content_fighter
        && e.equipment == equipment && e.weapon_profile == wp) = none →
      resolve_cost entries f equipment wp = some eL.cost) ∧
    (∀ eB,
      entries.find? (fun e => e.fighter == legacy && e.equipment == equipment
        && e.weapon_profile == wp) = none →
      entries.find? (fun e => e.fighter == f.content_fighter
        && e.equipment == equipment && e.weapon_profile == wp) = some eB →
      resolve_cost entries f equipment wp = some eB.cost) := by
  refine ⟨fun eL eB hL hB => ?_, fun eL hL hB => ?_, fun eB hL hB => ?_⟩ <;>
    simp [resolve_cost, equipment_list_fighters, hleg, List.findSome?_cons,
      hL, hB]

/-- Witness for C8, mirroring the repository test: equipment 100 costs 30 on
the base source (fighter 1) and 25 on the legacy source (fighter 2); the
legacy cost wins. -/
theorem c8_witness :
    resolve_cost
      [ContentFighterEquipmentListItem.mk 1 100 none 30,
       ContentFighterEquipmentListItem.mk 2 100 none 25]
      (CoreListFighter.mk 1 (some 2)) 100 none = some 25 :=
  (c8_resolve_cost_precedence
    [ContentFighterEquipmentListItem.mk 1 100 none 30,
     ContentFighterEquipmentListItem.mk 2 100 none 25]
    (CoreListFighter.mk 1 (some 2)) 2 100 none rfl).1
    (ContentFighterEquipmentListItem.mk 2 100 none 25)
    (ContentFighterEquipmentListItem.mk 1 100 none 30)
    (by decide) (by decide)

/-! ## C6 -/

/-- A catalog with two applicable expansions both carrying a base-level item
for equipment 42: expansion 0 with override cost 5, expansion 1 with a null
cost. -/
def dbC6 : Db :=
  Db.mk
    [ContentEquipmentListExpansion.mk 0
      [ContentEquipmentListExpansionRule.byHouse 7],
     ContentEquipmentListExpansion.mk 1
      [ContentEquipmentListExpansionRule.byHouse 7]]
    [ContentEquipmentListExpansionItem.mk 0 42 none (some 5),
     ContentEquipmentListExpansionItem.mk 1 42 none none]
    [ContentEquipment.mk 42 10]

/-- An input matching both expansions of `dbC6`. -/
def inpC6 : ExpansionRuleInputs :=
  ExpansionRuleInputs.mk (some (GangList.mk 7 [])) none

/-- C6 counterexample: a base-level item of an applicable expansion supplies
the non-null cost 5 for equipment 42, yet the later base-level item with a
null cost overwrites the override, so the effective cost is the native 10,
not 5. -/
theorem c6_counterexample :
    (∃ it ∈ applicableItems dbC6 inpC6,
      it.equipment = 42 ∧ it.weapon_profile = none ∧ it.cost = some 5) ∧
    get_expansion_equipment dbC6 inpC6 =
      some [(ContentEquipment.mk 42 10, 10)] ∧
    (10 : Int) ≠ 5 :=
  ⟨by decide, rfl, by decide⟩

/-- The base-cost field `equipment_data` carries for an equipment id —
distinguishing an absent key from a present key with a (possibly null)
override. -/
def dataCost (m : List (Nat × EqData)) (k : Nat) : Option (Option Int) :=
  (dataFind m k).map (fun d => d.cost)

lemma any_key_isSome (m : List (Nat × EqData)) (k : Nat) :
    (m.any fun kv => kv.1 == k) = (dataFind m k).isSome := by
  induction m with
  | nil => rfl
  | cons kv m ih =>
    by_cases h : (kv.1 == k) = true <;> simp [dataFind, h, ih]

lemma dataUpdate_cons (kv : Nat × EqData) (m : List (Nat × EqData)) (k : Nat)
    (f : EqData → EqData) :
    dataUpdate (kv :: m) k f =
      (if kv.1 == k then (kv.1, f kv.2) else kv) :: dataUpdate m k f := rfl

lemma dataFind_update_self (m : List (Nat × EqData)) (k : Nat)
    (f : EqData → EqData) :
    dataFind (dataUpdate m k f) k = (dataFind m k).map f := by
  induction m with
  | nil => rfl
  | cons kv m ih =>
    rw [dataUpdate_cons]
    by_cases h : (kv.1 == k) = true
    · rw [if_pos h]
      simp [dataFind, h]
    · rw [if_neg h]
      simp only [dataFind, h, Bool.false_eq_true, if_false]
      exact ih

lemma dataFind_update_ne (m : List (Nat × EqData)) (k k₂ : Nat)
    (f : EqData → EqData) (h : k₂ ≠ k) :
    dataFind (dataUpdate m k f) k₂ = dataFind m k₂ := by
  induction m with
  | nil => rfl
  | cons kv m ih =>
    rw [dataUpdate_cons]
    by_cases hk : (kv.1 == k) = true
    · by_cases hk₂ : (kv.1 == k₂) = true
      · exact absurd ((beq_iff_eq.mp hk₂).symm.trans (beq_iff_eq.mp hk)) h
      · rw [if_pos hk]
        simp only [dataFind]
        rw [if_neg hk₂, if_neg hk₂]
        exact ih
    · by_cases hk₂ : (kv.1 == k₂) = true
      · rw [if_neg hk]
        simp [dataFind, hk₂]
      · rw [if_neg hk]
        simp only [dataFind]
        rw [if_neg hk₂, if_neg hk₂]
        exact ih

lemma dataFind_append_single (m : List (Nat × EqData)) (k k₂ : Nat)
    (d : EqData) :
    dataFind (m ++ [(k₂, d)]) k =
      match dataFind m k with
      | some x => some x
      | none => if k₂ == k then some d else none := by
  induction m with
  | nil => rfl
  | cons kv m ih =>
    by_cases h : (kv.1 == k) = true
    · simp [dataFind, h]
    · simp only [List.cons_append]
      unfold dataFind
      rw [if_neg (by simp [h]), if_neg (by simp [h])]
      exact ih

lemma dataFind_init_self (m : List (Nat × EqData)) (k : Nat) :
    dataFind (dataInit m k) k =
      some ((dataFind m k).getD (EqData.mk none [])) := by
  unfold dataInit
  by_cases h : (m.any fun kv => kv.1 == k) = true
  · rw [if_pos h]
    rw [any_key_isSome] at h
    obtain ⟨d, hd⟩ := Option.isSome_iff_exists.mp h
    rw [hd]
    rfl
  · rw [if_neg h]
    have hn : dataFind m k = none := by
      cases hf : dataFind m k with
      | none => rfl
      | some d =>
        rw [any_key_isSome, hf] at h
        exact absurd rfl h
    rw [dataFind_append_single, hn]
    simp

lemma dataFind_init_ne (m : List (Nat × EqData)) (k k₂ : Nat) (h : k₂ ≠ k) :
    dataFind (dataInit m k) k₂ = dataFind m k₂ := by
  unfold dataInit
  by_cases hc : (m.any fun kv => kv.1 == k) = true
  · rw [if_pos hc]
  · rw [if_neg hc, dataFind_append_single]
    have hkk : (k == k₂) = false := by
      simp only [beq_eq_false_iff_ne, ne_eq]
      exact fun hc2 => h hc2.symm
    cases hf : dataFind m k₂ <;> simp [hkk]

lemma dataCost_processItem (m : List (Nat × EqData))
    (it : ContentEquipmentListExpansionItem) (k : Nat) :
    dataCost (processItem m it) k =
      if it.equipment = k then
        match it.weapon_profile with
        | none => some it.cost
        | some _ => some ((dataCost m k).getD none)
      else dataCost m k := by
  by_cases h : it.equipment = k
  · rw [if_pos h]
    cases hwp : it.weapon_profile with
    | none =>
      unfold processItem dataCost
      rw [hwp, ← h, dataFind_update_self, dataFind_init_self]
      rfl
    | some wp =>
      unfold processItem dataCost
      rw [hwp, ← h, dataFind_update_self, dataFind_init_self]
      cases hf : dataFind m it.equipment with
      | none => rfl
      | some d => rfl
  · rw [if_neg h]
    unfold processItem dataCost
    cases hwp : it.weapon_profile with
    | none =>
      rw [dataFind_update_ne _ _ _ _ (fun hc => h hc.symm),
        dataFind_init_ne _ _ _ (fun hc => h hc.symm)]
    | some wp =>
      rw [dataFind_update_ne _ _ _ _ (fun hc => h hc.symm),
        dataFind_init_ne _ _ _ (fun hc => h hc.symm)]

/-- What the base-cost field of `equipment_data` looks like after folding a
batch of items: the last base-level item for the key wins; with no base-level
item the override stays whatever it was, initialized to null when any item
references the key. -/
lemma dataCost_foldl (its : List ContentEquipmentListExpansionItem)
    (m : List (Nat × EqData)) (k : Nat) :
    dataCost (its.foldl processItem m) k =
      match (its.filter fun it =>
          it.equipment == k && it.weapon_profile.isNone).getLast? with
      | some it => some it.cost
      | none =>
        match dataCost m k with
        | some oc => some oc
        | none =>
          if its.any (fun it => it.equipment == k) then some none
          else none := by
  induction its using List.reverseRecOn with
  | nil =>
    simp only [List.foldl_nil, List.filter_nil, List.getLast?_nil,
      List.any_nil, Bool.false_eq_true, if_false]
    cases dataCost m k <;> rfl
  | append_singleton its it ih =>
    rw [List.foldl_append, List.foldl_cons, List.foldl_nil,
      List.filter_append, List.any_append, dataCost_processItem, ih]
    by_cases h : it.equipment = k
    · rw [if_pos h]
      cases hwp : it.weapon_profile with
      | none =>
        have hpred : (it.equipment == k && it.weapon_profile.isNone) = true := by
          simp [h, hwp]
        rw [show (List.filter (fun it =>
            it.equipment == k && it.weapon_profile.isNone) [it]) = [it] by
          simp [hpred]]
        rw [List.getLast?_concat]
      | some wp =>
        have hpred : (it.equipment == k && it.weapon_profile.isNone) = false := by
          simp [hwp]
        rw [show (List.filter (fun it =>
            it.equipment == k && it.weapon_profile.isNone) [it]) = [] by
          simp [hpred]]
        rw [List.append_nil]
        have hany : (List.any [it] fun it => it.equipment == k) = true := by
          simp [h]
        rw [hany, Bool.or_true]
        cases hg : (its.filter fun it =>
            it.equipment == k && it.weapon_profile.isNone).getLast? with
        | some it₂ => rfl
        | none =>
          cases hm : dataCost m k with
          | some oc => rfl
          | none =>
            by_cases ha : (its.any fun it => it.equipment == k) = true
            · rw [if_pos ha]
              rfl
            · rw [if_neg ha]
              rfl
    · rw [if_neg h]
      have hb : (it.equipment == k) = false := by simp [h]
      have hpred : (it.equipment == k && it.weapon_profile.isNone) = false := by
        simp [hb]
      rw [show (List.filter (fun it =>
          it.equipment == k && it.weapon_profile.isNone) [it]) = [] by
        simp [hpred]]
      rw [List.append_nil]
      have hany : (List.any [it] fun it => it.equipment == k) = false := by
        simp [hb]
      rw [hany, Bool.or_false]

/-- Folding item batches expansion by expansion is folding the concatenated
item stream. -/
lemma foldl_expansions_eq (db : Db)
    (es : List ContentEquipmentListExpansion) (m : List (Nat × EqData)) :
    es.foldl (fun m e => (expansionItems db e).foldl processItem m) m =
      (es.flatMap (expansionItems db)).foldl processItem m := by
  induction es generalizing m with
  | nil => rfl
  | cons e es ih =>
    rw [List.foldl_cons, List.flatMap_cons, List.foldl_append, ih]

/-- C6 as amended: every returned equipment's effective cost is the cost of
the last base-level item for it among the applicable expansions' items in
processing order when that cost is non-null, and the equipment's native cost
otherwise — in particular, equipment appearing only in profile-level items
keeps a null base override and its native cost. -/
theorem c6_amended_effective_cost (db : Db) (inp : ExpansionRuleInputs)
    (l : GangList) (eq : ContentEquipment) (c : Int)
    (hl : inp.list = some l)
    (hmem : (eq, c) ∈ (get_expansion_equipment db inp).getD []) :
    c = (lastBaseCost db inp eq.id).getD eq.cost_cast_int := by
  obtain ⟨apps, happ⟩ : ∃ apps, get_applicable_expansions db inp = some apps := by
    simp only [get_applicable_expansions, hl, Option.map_some']
    exact ⟨_, rfl⟩
  have hit : applicableItems db inp = apps.flatMap (expansionItems db) := by
    simp [applicableItems, happ]
  have hout : get_expansion_equipment db inp = some
      ((db.equipment.filter (fun eq =>
        (apps.foldl (fun m e => (expansionItems db e).foldl processItem m)
          []).any (fun kv => kv.1 == eq.id))).map (fun eq =>
        (eq, ((dataCost (apps.foldl
            (fun m e => (expansionItems db e).foldl processItem m) [])
          eq.id).getD none).getD eq.cost_cast_int))) := by
    simp only [get_expansion_equipment, happ, Option.map_some',
      Option.some.injEq]
    apply List.map_congr_left
    intro eq2 _
    unfold dataCost
    cases dataFind (apps.foldl
        (fun m e => (expansionItems db e).foldl processItem m) []) eq2.id with
    | none => rfl
    | some d =>
      obtain ⟨dcost, dprofiles⟩ := d
      cases dcost <;> rfl
  rw [hout, Option.getD_some] at hmem
  obtain ⟨a, ha, heq⟩ := List.mem_map.mp hmem
  rw [Prod.mk.injEq] at heq
  obtain ⟨rfl, hc⟩ := heq
  have hdata : dataCost (apps.foldl
      (fun m e => (expansionItems db e).foldl processItem m) []) a.id =
      match ((applicableItems db inp).filter fun it =>
          it.equipment == a.id && it.weapon_profile.isNone).getLast? with
      | some it => some it.cost
      | none =>
        if (applicableItems db inp).any (fun it => it.equipment == a.id) then
          some none
        else none := by
    rw [foldl_expansions_eq, ← hit, dataCost_foldl]
    cases ((applicableItems db inp).filter fun it =>
        it.equipment == a.id && it.weapon_profile.isNone).getLast? <;> rfl
  rw [← hc, hdata]
  unfold lastBaseCost
  cases hg : ((applicableItems db inp).filter fun it =>
      it.equipment == a.id && it.weapon_profile.isNone).getLast? with
  | some it => rfl
  | none =>
    by_cases ha2 : ((applicableItems db inp).any
        fun it => it.equipment == a.id) = true
    · rw [if_pos ha2]
      rfl
    · rw [if_neg ha2]
      rfl

/-- Witness for C6's amended theorem at the `dbC6` catalog: equipment 42's
last base-level item has a null cost, so the effective cost is the native
10. -/
theorem c6_witness :
    (10 : Int) =
      (lastBaseCost dbC6 inpC6 (ContentEquipment.mk 42 10).id).getD
        (ContentEquipment.mk 42 10).cost_cast_int :=
  c6_amended_effective_cost dbC6 inpC6 (GangList.mk 7 [])
    (ContentEquipment.mk 42 10) 10 rfl (by decide)

end Gyrinx
